import Mathlib

/-!
Verification development for the filesystem utility module
`src/vs/base/node/pfs.ts` of the repository.

The module wraps Node.js `fs` primitives.  Those primitives are external
to the repository, so they are modelled as an abstract interface
(`NodeFS`): a record of functions from paths to results, each result an
`Except` of an errno-style code.  The functions of `pfs.ts` are then
translated over this interface, and concrete filesystem states
(`FSMap`) instantiate the interface where a claim talks about an actual
filesystem shape.

Platform detection (`isWindows`, `isMacintosh` from
`vs/base/common/platform`) is passed as explicit boolean arguments.
-/

/-- Errno-style error codes used by the Node.js `fs` layer. -/
inductive ErrCode where
  | enoent
  | exdev
  | eacces
  | eloop
  | einval
  | enotdir
  | eio
  deriving DecidableEq, Repr

/-- The subset of `fs.Stats` the module consults: the three type
predicates `isFile()`, `isDirectory()`, `isSymbolicLink()`. -/
structure Stats where
  isFile : Bool
  isDirectory : Bool
  isSymbolicLink : Bool
  deriving DecidableEq, Repr

/-- Abstract interface to the Node.js `fs` primitives used by
`SymlinkSupport` and `copy`: `lstat`, `stat` (follows symbolic links),
`readlink` and `readdir`. -/
structure NodeFS where
  lstat : String → Except ErrCode Stats
  stat : String → Except ErrCode Stats
  readlink : String → Except ErrCode String
  readdirNames : String → Except ErrCode (List String)

/-- The `{ dangling: boolean }` payload of `IStats.symbolicLink`. -/
structure SymbolicLinkInfo where
  dangling : Bool
  deriving DecidableEq, Repr

/-- `SymlinkSupport.IStats` from pfs.ts: the stats of the file, plus a
`symbolicLink` field provided exactly when the resource is a symbolic
link on disk. -/
structure SymlinkSupport.IStats where
  stat : Stats
  symbolicLink : Option SymbolicLinkInfo := none
  deriving DecidableEq, Repr

/-- Second half of `SymlinkSupport.stat`: the `fs.stat()` call and its
error handling, reached when the initial `lstat` found a symbolic link
or itself failed (`lstats` is the optional result of that `lstat`). -/
def SymlinkSupport.statFollow (isWindows : Bool) (fs : NodeFS) (path : String)
    (lstats : Option Stats) : Except ErrCode SymlinkSupport.IStats :=
  match fs.stat path with
  | .ok stats =>
      .ok { stat := stats,
            symbolicLink :=
              if (lstats.map Stats.isSymbolicLink).getD false then
                some { dangling := false }
              else none }
  | .error e =>
      match lstats with
      | some l =>
          if e = .enoent then
            -- the link points to a non-existing file: still return it
            -- as result while setting dangling: true
            .ok { stat := l, symbolicLink := some { dangling := true } }
          else if isWindows && e = .eacces then
            -- Windows: workaround for reparse points, stat the readlink target
            match (match fs.readlink path with
                   | .ok target => fs.stat target
                   | .error e2 => .error e2) with
            | .ok stats =>
                .ok { stat := stats,
                      symbolicLink :=
                        if l.isSymbolicLink then some { dangling := false } else none }
            | .error e2 =>
                if e2 = .enoent then
                  .ok { stat := l, symbolicLink := some { dangling := true } }
                else .error e2
          else .error e
      | none => .error e

/-- `SymlinkSupport.stat` from pfs.ts: first `lstat` the path; if it is
not a symbolic link at all, return those stats directly; otherwise (or
when `lstat` failed) fall through to `fs.stat`, which follows the link. -/
def SymlinkSupport.stat (isWindows : Bool) (fs : NodeFS) (path : String) :
    Except ErrCode SymlinkSupport.IStats :=
  match fs.lstat path with
  | .ok lstats =>
      if !lstats.isSymbolicLink then .ok { stat := lstats }
      else SymlinkSupport.statFollow isWindows fs path (some lstats)
  | .error _ => SymlinkSupport.statFollow isWindows fs path none

/-- `SymlinkSupport.fileExists` from pfs.ts: `stat.isFile() &&
symbolicLink?.dangling !== true`, with any error from
`SymlinkSupport.stat` swallowed into `false`. -/
def SymlinkSupport.fileExists (isWindows : Bool) (fs : NodeFS) (path : String) : Bool :=
  match SymlinkSupport.stat isWindows fs path with
  | .ok r => r.stat.isFile && !((r.symbolicLink.map SymbolicLinkInfo.dangling).getD false)
  | .error _ => false

/-- `SymlinkSupport.dirExists` from pfs.ts: `stat.isDirectory() &&
symbolicLink?.dangling !== true`, with any error from
`SymlinkSupport.stat` swallowed into `false`. -/
def SymlinkSupport.dirExists (isWindows : Bool) (fs : NodeFS) (path : String) : Bool :=
  match SymlinkSupport.stat isWindows fs path with
  | .ok r => r.stat.isDirectory && !((r.symbolicLink.map SymbolicLinkInfo.dangling).getD false)
  | .error _ => false

/-! ## A concrete filesystem state instantiating `NodeFS`

`FSMap` is a finite association of paths to entries (regular file,
directory, or symbolic link).  The derived primitives follow the POSIX
behaviour the Node.js functions expose: `lstat` does not follow links,
`stat` follows chains of links with the usual loop limit, `readlink`
reads a link's target. -/

/-- A filesystem entry: a regular file with byte content, a directory
with its child names, or a symbolic link with its target path. -/
inductive FSEntry where
  | file (content : List Nat)
  | dir (children : List String)
  | symlink (target : String)
  deriving DecidableEq, Repr

/-- A finite filesystem state: an association list from absolute path
strings to entries. -/
def FSMap := List (String × FSEntry)

instance : DecidableEq FSMap := fun a b => List.hasDecEq a b

def FSMap.lookup (m : FSMap) (p : String) : Option FSEntry :=
  List.lookup p m

def FSMap.length (m : FSMap) : Nat := List.length m

/-- The `fs.Stats` type predicates of an entry. -/
def FSEntry.statsOf : FSEntry → Stats
  | .file _ => { isFile := true, isDirectory := false, isSymbolicLink := false }
  | .dir _ => { isFile := false, isDirectory := true, isSymbolicLink := false }
  | .symlink _ => { isFile := false, isDirectory := false, isSymbolicLink := true }

/-- `fs.promises.lstat`: stats of the entry at the path itself, `ENOENT`
if absent. -/
def FSMap.lstat (m : FSMap) (p : String) : Except ErrCode Stats :=
  match m.lookup p with
  | none => .error .enoent
  | some e => .ok e.statsOf

/-- Symbolic-link resolution with fuel: follows link targets, failing
with `ELOOP` when the fuel is exhausted (cyclic links). -/
def FSMap.resolveStat (m : FSMap) : Nat → String → Except ErrCode Stats
  | 0, _ => .error .eloop
  | n + 1, p =>
      match m.lookup p with
      | none => .error .enoent
      | some (.symlink t) => m.resolveStat n t
      | some e => .ok e.statsOf

/-- `fs.promises.stat`: resolves symbolic links; enough fuel to follow
any acyclic chain in the map. -/
def FSMap.stat (m : FSMap) (p : String) : Except ErrCode Stats :=
  m.resolveStat (m.length + 1) p

/-- `fs.promises.readlink`: the target of a symbolic link, `EINVAL` on a
non-link entry. -/
def FSMap.readlink (m : FSMap) (p : String) : Except ErrCode String :=
  match m.lookup p with
  | some (.symlink t) => .ok t
  | some _ => .error .einval
  | none => .error .enoent

/-- Directory listing with symbolic-link resolution and fuel. -/
def FSMap.resolveReaddir (m : FSMap) : Nat → String → Except ErrCode (List String)
  | 0, _ => .error .eloop
  | n + 1, p =>
      match m.lookup p with
      | none => .error .enoent
      | some (.symlink t) => m.resolveReaddir n t
      | some (.dir cs) => .ok cs
      | some (.file _) => .error .enotdir

/-- Bundle the derived primitives of a concrete filesystem state into
the abstract `NodeFS` interface. -/
def FSMap.toNodeFS (m : FSMap) : NodeFS where
  lstat := m.lstat
  stat := m.stat
  readlink := m.readlink
  readdirNames := fun p => m.resolveReaddir (m.length + 1) p

/-- A sample filesystem state: a regular file, a link to it, a dangling
link, and a directory. -/
def fsm1 : FSMap :=
  [("/f", .file [1]), ("/l", .symlink "/f"), ("/d", .symlink "/missing"),
   ("/dir", .dir ["f"])]

/-- C4: for a path whose entry is a symbolic link, `SymlinkSupport.stat`
returns the stats of the resolved target with `dangling = false` when
resolution succeeds, and the link's own `lstat` stats with
`dangling = true` when resolution fails with `ENOENT`; for a
non-symbolic-link entry it returns the plain stats with no
`symbolicLink` field. -/
theorem C4_symlink_aware_stat (w : Bool) (m : FSMap) (path : String) :
    (∀ t s, m.lookup path = some (.symlink t) →
      m.toNodeFS.stat path = .ok s →
      SymlinkSupport.stat w m.toNodeFS path =
        .ok { stat := s, symbolicLink := some { dangling := false } }) ∧
    (∀ t, m.lookup path = some (.symlink t) →
      m.toNodeFS.stat path = .error .enoent →
      SymlinkSupport.stat w m.toNodeFS path =
        .ok { stat := (FSEntry.symlink t).statsOf,
              symbolicLink := some { dangling := true } }) ∧
    (∀ e, m.lookup path = some e → e.statsOf.isSymbolicLink = false →
      SymlinkSupport.stat w m.toNodeFS path =
        .ok { stat := e.statsOf, symbolicLink := none }) := by
  refine ⟨?_, ?_, ?_⟩
  · intro t s hlook hstat
    simp only [SymlinkSupport.stat, FSMap.toNodeFS, FSMap.lstat, hlook]
    simp [SymlinkSupport.statFollow, FSMap.toNodeFS] at hstat ⊢
    simp [hstat, FSEntry.statsOf]
  · intro t hlook hstat
    simp only [SymlinkSupport.stat, FSMap.toNodeFS, FSMap.lstat, hlook]
    simp [SymlinkSupport.statFollow, FSMap.toNodeFS] at hstat ⊢
    simp [hstat, FSEntry.statsOf]
  · intro e hlook hsym
    simp only [SymlinkSupport.stat, FSMap.toNodeFS, FSMap.lstat, hlook]
    cases e <;> simp_all [FSEntry.statsOf]

/-- C4 witness: on the sample state, the link `/l` resolves to the
regular file `/f` with `dangling = false`. -/
theorem C4_witness :
    SymlinkSupport.stat false fsm1.toNodeFS "/l" =
      .ok { stat := { isFile := true, isDirectory := false, isSymbolicLink := false },
            symbolicLink := some { dangling := false } } :=
  (C4_symlink_aware_stat false fsm1 "/l").1 "/f"
    { isFile := true, isDirectory := false, isSymbolicLink := false }
    (by decide) rfl

/-- C10: `fileExists` and `dirExists` are total boolean functions that
return `false` whenever `SymlinkSupport.stat` fails, and return `true`
exactly when the resolved stats are a regular file (respectively a
directory) and the path is not a dangling symbolic link. -/
theorem C10_exists_never_throws (w : Bool) (fs : NodeFS) (path : String) :
    (∀ e, SymlinkSupport.stat w fs path = .error e →
      SymlinkSupport.fileExists w fs path = false ∧
      SymlinkSupport.dirExists w fs path = false) ∧
    (SymlinkSupport.fileExists w fs path = true ↔
      ∃ r, SymlinkSupport.stat w fs path = .ok r ∧ r.stat.isFile = true ∧
        r.symbolicLink ≠ some { dangling := true }) ∧
    (SymlinkSupport.dirExists w fs path = true ↔
      ∃ r, SymlinkSupport.stat w fs path = .ok r ∧ r.stat.isDirectory = true ∧
        r.symbolicLink ≠ some { dangling := true }) := by
  refine ⟨?_, ?_, ?_⟩
  · intro e he
    simp [SymlinkSupport.fileExists, SymlinkSupport.dirExists, he]
  · constructor
    · intro h
      simp only [SymlinkSupport.fileExists] at h
      cases hstat : SymlinkSupport.stat w fs path with
      | ok r =>
          rw [hstat] at h
          refine ⟨r, rfl, ?_, ?_⟩ <;> cases hsym : r.symbolicLink with
          | none => simp_all
          | some i => obtain ⟨d⟩ := i; simp_all
      | error e => rw [hstat] at h; simp at h
    · rintro ⟨r, hr, hfile, hdang⟩
      simp only [SymlinkSupport.fileExists, hr]
      cases hsym : r.symbolicLink with
      | none => simp [hfile]
      | some i => cases i with
        | mk d => cases d <;> simp_all
  · constructor
    · intro h
      simp only [SymlinkSupport.dirExists] at h
      cases hstat : SymlinkSupport.stat w fs path with
      | ok r =>
          rw [hstat] at h
          refine ⟨r, rfl, ?_, ?_⟩ <;> cases hsym : r.symbolicLink with
          | none => simp_all
          | some i => obtain ⟨d⟩ := i; simp_all
      | error e => rw [hstat] at h; simp at h
    · rintro ⟨r, hr, hdir, hdang⟩
      simp only [SymlinkSupport.dirExists, hr]
      cases hsym : r.symbolicLink with
      | none => simp [hdir]
      | some i => cases i with
        | mk d => cases d <;> simp_all

/-- C10 witness: on the sample state, `fileExists` holds of the regular
file `/f`. -/
theorem C10_witness :
    SymlinkSupport.fileExists false fsm1.toNodeFS "/f" = true :=
  (C10_exists_never_throws false fsm1.toNodeFS "/f").2.1.mpr
    ⟨{ stat := { isFile := true, isDirectory := false, isSymbolicLink := false },
       symbolicLink := none }, rfl, rfl, by simp⟩

/-! ## readdir with NFC support (macOS) -/

/-- A directory entry as returned by `fs.readdir(path, { withFileTypes:
true })`: the child name and its stats kind. -/
structure Dirent where
  name : String
  stats : Stats
  deriving DecidableEq, Repr

/-- Modelled from the spec: `normalizeNFC` from
`vs/base/common/normalization` is not part of this repository slice; the
spec describes it as platform-specific Unicode normalization to NFC
form.  It is kept abstract as a function argument, and a string is *in
NFC form* for that function when normalizing it leaves it unchanged. -/
def InNFC (normalizeNFC : String → String) (s : String) : Prop :=
  normalizeNFC s = s

/-- `handleDirectoryChildren` from pfs.ts: on macOS map every child name
through `normalizeNFC`, elsewhere return the children unchanged. -/
def handleDirectoryChildren (isMacintosh : Bool) (normalizeNFC : String → String)
    (children : List String) : List String :=
  if isMacintosh then children.map normalizeNFC else children

/-- `readdir` from pfs.ts: the primitive directory listing post-processed
by `handleDirectoryChildren`. -/
def readdir (isMacintosh : Bool) (normalizeNFC : String → String) (fs : NodeFS)
    (path : String) : Except ErrCode (List String) :=
  (fs.readdirNames path).map (handleDirectoryChildren isMacintosh normalizeNFC)

/-- `readdirSync` from pfs.ts: same post-processing over the synchronous
primitive listing. -/
def readdirSync (isMacintosh : Bool) (normalizeNFC : String → String) (fs : NodeFS)
    (path : String) : Except ErrCode (List String) :=
  (fs.readdirNames path).map (handleDirectoryChildren isMacintosh normalizeNFC)

/-- `readdirWithFileTypes` from pfs.ts: on macOS rewrite each `Dirent`
name through `normalizeNFC`, elsewhere return the entries unchanged
(`children` is the primitive `withFileTypes` listing). -/
def readdirWithFileTypes (isMacintosh : Bool) (normalizeNFC : String → String)
    (children : List Dirent) : List Dirent :=
  if isMacintosh then
    children.map (fun c => { c with name := normalizeNFC c.name })
  else children

/-- C5: with an idempotent normalization function, every child name
returned on macOS by `readdir`, `readdirSync` and `readdirWithFileTypes`
is in NFC form; on any other platform all three return the primitive
listing unchanged. -/
theorem C5_readdir_nfc (nfc : String → String) (fs : NodeFS) (path : String)
    (ds : List Dirent) (hidem : ∀ s, nfc (nfc s) = nfc s) :
    (∀ names, readdir true nfc fs path = .ok names → ∀ n ∈ names, InNFC nfc n) ∧
    (∀ names, readdirSync true nfc fs path = .ok names → ∀ n ∈ names, InNFC nfc n) ∧
    (∀ d ∈ readdirWithFileTypes true nfc ds, InNFC nfc d.name) ∧
    (readdir false nfc fs path = fs.readdirNames path ∧
     readdirSync false nfc fs path = fs.readdirNames path ∧
     readdirWithFileTypes false nfc ds = ds) := by
  refine ⟨?_, ?_, ?_, ?_, ?_, ?_⟩
  · intro names h n hn
    cases hraw : fs.readdirNames path with
    | ok raw =>
        simp [readdir, hraw, handleDirectoryChildren, Except.map] at h
        subst h
        obtain ⟨r, _, hr⟩ := List.mem_map.mp hn
        exact hr ▸ hidem r
    | error e => simp [readdir, hraw, Except.map] at h
  · intro names h n hn
    cases hraw : fs.readdirNames path with
    | ok raw =>
        simp [readdirSync, hraw, handleDirectoryChildren, Except.map] at h
        subst h
        obtain ⟨r, _, hr⟩ := List.mem_map.mp hn
        exact hr ▸ hidem r
    | error e => simp [readdirSync, hraw, Except.map] at h
  · intro d hd
    simp only [readdirWithFileTypes, if_pos rfl] at hd
    obtain ⟨c, _, hc⟩ := List.mem_map.mp hd
    subst hc
    exact hidem c.name
  · cases hraw : fs.readdirNames path <;>
      simp [readdir, hraw, handleDirectoryChildren, Except.map]
  · cases hraw : fs.readdirNames path <;>
      simp [readdirSync, hraw, handleDirectoryChildren, Except.map]
  · simp [readdirWithFileTypes]

/-- A toy concrete normalization for the C5 witness: rewrites the
decomposed sequence U+0065 U+0301 to the precomposed U+00E9. -/
def nfcToy (s : String) : String := if s = "é" then "é" else s

/-- A sample filesystem state whose directory holds a child name in
decomposed (NFD) form. -/
def fsm2 : FSMap := [("/dir", .dir ["é"])]

/-- C5 witness: listing the sample directory on macOS yields the
precomposed name, which is in NFC form for the toy normalization. -/
theorem C5_witness : InNFC nfcToy "é" :=
  (C5_readdir_nfc nfcToy fsm2.toNodeFS "/dir" []
      (fun s => by unfold nfcToy; by_cases h : s = "é" <;> simp [h])).1
    ["é"] rfl "é" (by simp)

/-! ## Write file: per-path queueing -/

/-- `toQueueKey` from pfs.ts: on Windows and macOS the queue key is the
lowercased path, to accommodate case insensitive file systems. -/
def toQueueKey (isWindows isMacintosh : Bool) (path : String) : String :=
  if isWindows || isMacintosh then path.toLower else path

/-- The live `writeFilePathQueues` map, modelled as an association of
queue keys to queue identifiers together with a counter supplying fresh
identifiers for newly constructed queues. -/
structure QueueMap where
  queues : List (String × Nat)
  nextId : Nat
  deriving DecidableEq, Repr

def QueueMap.empty : QueueMap := { queues := [], nextId := 0 }

/-- `ensureWriteFileQueue` from pfs.ts: return the existing queue
registered for the key, or construct a fresh queue and register it. -/
def ensureWriteFileQueue (m : QueueMap) (queueKey : String) : Nat × QueueMap :=
  match List.lookup queueKey m.queues with
  | some q => (q, m)
  | none =>
      (m.nextId,
       { queues := (queueKey, m.nextId) :: m.queues, nextId := m.nextId + 1 })

/-- The `onFinish` handler installed by `ensureWriteFileQueue`: once a
queue drains, its entry is removed from the map and the queue disposed.
(The serialization claim concerns calls pending at the same time, whose
queue has not drained in between.) -/
def removeWriteFileQueue (m : QueueMap) (queueKey : String) : QueueMap :=
  { m with queues := m.queues.filter (fun kv => kv.1 != queueKey) }

/-- The queue-identifier assignment the `writeFile` entry point makes
for a sequence of calls: each call, in submission order, is enqueued on
`ensureWriteFileQueue (toQueueKey path)`. -/
def assignQueues (isWindows isMacintosh : Bool) : List String → QueueMap → List Nat
  | [], _ => []
  | p :: ps, m =>
      (ensureWriteFileQueue m (toQueueKey isWindows isMacintosh p)).1 ::
        assignQueues isWindows isMacintosh ps
          (ensureWriteFileQueue m (toQueueKey isWindows isMacintosh p)).2

/-- Well-formedness of the queue map: registered identifiers are below
the freshness counter and no identifier is registered for two keys. -/
def QueueMap.WF (m : QueueMap) : Prop :=
  (∀ k q, List.lookup k m.queues = some q → q < m.nextId) ∧
  (∀ k1 k2 q, List.lookup k1 m.queues = some q →
     List.lookup k2 m.queues = some q → k1 = k2)

theorem QueueMap.WF_empty : QueueMap.empty.WF := by
  constructor
  · intro k q h; simp [QueueMap.empty] at h
  · intro k1 k2 q h; simp [QueueMap.empty] at h

theorem ensureWriteFileQueue_lookup_self (m : QueueMap) (k : String) :
    List.lookup k (ensureWriteFileQueue m k).2.queues =
      some (ensureWriteFileQueue m k).1 := by
  unfold ensureWriteFileQueue
  cases h : List.lookup k m.queues with
  | some q => simpa using h
  | none => simp

theorem lookup_cons_self (k : String) (v : Nat) (l : List (String × Nat)) :
    List.lookup k ((k, v) :: l) = some v := by
  simp [List.lookup]

theorem lookup_cons_ne (k1 k2 : String) (v : Nat) (l : List (String × Nat))
    (h : k1 ≠ k2) : List.lookup k1 ((k2, v) :: l) = List.lookup k1 l := by
  have hb : (k1 == k2) = false := beq_eq_false_iff_ne.mpr h
  simp [List.lookup, hb]

theorem ensureWriteFileQueue_preserves (m : QueueMap) (k k0 : String) (q0 : Nat)
    (h : List.lookup k0 m.queues = some q0) :
    List.lookup k0 (ensureWriteFileQueue m k).2.queues = some q0 := by
  unfold ensureWriteFileQueue
  cases hk : List.lookup k m.queues with
  | some q => simpa using h
  | none =>
      have hne : k0 ≠ k := by
        intro he; rw [he, hk] at h; exact Option.noConfusion h
      simpa [lookup_cons_ne k0 k _ _ hne] using h

theorem ensureWriteFileQueue_WF (m : QueueMap) (k : String) (hwf : m.WF) :
    (ensureWriteFileQueue m k).2.WF := by
  unfold ensureWriteFileQueue
  cases hk : List.lookup k m.queues with
  | some q => exact hwf
  | none =>
      constructor
      · intro k1 q1 h1
        by_cases he : k1 = k
        · subst he
          rw [lookup_cons_self] at h1
          simp at h1 ⊢
          omega
        · rw [lookup_cons_ne k1 k _ _ he] at h1
          have := hwf.1 k1 q1 h1
          simp
          omega
      · intro k1 k2 q1 h1 h2
        by_cases he1 : k1 = k <;> by_cases he2 : k2 = k
        · rw [he1, he2]
        · rw [he1, lookup_cons_self] at h1
          rw [lookup_cons_ne k2 k _ _ he2] at h2
          have hlt := hwf.1 k2 q1 h2
          have heq := Option.some.inj h1
          exfalso
          omega
        · rw [he2, lookup_cons_self] at h2
          rw [lookup_cons_ne k1 k _ _ he1] at h1
          have hlt := hwf.1 k1 q1 h1
          have heq := Option.some.inj h2
          exfalso
          omega
        · rw [lookup_cons_ne k1 k _ _ he1] at h1
          rw [lookup_cons_ne k2 k _ _ he2] at h2
          exact hwf.2 k1 k2 q1 h1 h2

theorem assignQueues_key_char (w mac : Bool) (k : String) (q : Nat) :
    ∀ (ps : List String) (m : QueueMap), m.WF →
      List.lookup k m.queues = some q →
      ∀ pq ∈ ps.zip (assignQueues w mac ps m),
        (pq.2 = q ↔ toQueueKey w mac pq.1 = k) := by
  intro ps
  induction ps with
  | nil => intro m _ _ pq hpq; simp [assignQueues] at hpq
  | cons p ps ih =>
      intro m hwf hk pq hpq
      rw [assignQueues, List.zip_cons_cons] at hpq
      rcases List.mem_cons.mp hpq with h | h
      · subst h
        simp only
        by_cases hkey : toQueueKey w mac p = k
        · rw [hkey]
          unfold ensureWriteFileQueue
          rw [hk]
          simp
        · constructor
          · intro hq
            exfalso
            revert hq
            unfold ensureWriteFileQueue
            cases hl : List.lookup (toQueueKey w mac p) m.queues with
            | some q2 =>
                intro hq
                simp at hq
                exact hkey (hwf.2 _ _ _ hl (hq ▸ hk))
            | none =>
                intro hq
                simp at hq
                have := hwf.1 k q hk
                omega
          · intro hkk; exact absurd hkk hkey
      · exact ih _ (ensureWriteFileQueue_WF m _ hwf)
          (ensureWriteFileQueue_preserves m _ k q hk) pq h

theorem assignQueues_same_queue_iff (w mac : Bool) :
    ∀ (ps : List String) (m : QueueMap), m.WF →
      ∀ pq1 ∈ ps.zip (assignQueues w mac ps m),
      ∀ pq2 ∈ ps.zip (assignQueues w mac ps m),
        (pq1.2 = pq2.2 ↔ toQueueKey w mac pq1.1 = toQueueKey w mac pq2.1) := by
  intro ps
  induction ps with
  | nil => intro m _ pq1 hpq1; simp [assignQueues] at hpq1
  | cons p ps ih =>
      intro m hwf pq1 hpq1 pq2 hpq2
      rw [assignQueues, List.zip_cons_cons] at hpq1 hpq2
      have hwf2 := ensureWriteFileQueue_WF m (toQueueKey w mac p) hwf
      have hself := ensureWriteFileQueue_lookup_self m (toQueueKey w mac p)
      rcases List.mem_cons.mp hpq1 with h1 | h1 <;>
        rcases List.mem_cons.mp hpq2 with h2 | h2
      · subst h1; subst h2; simp
      · subst h1
        have := assignQueues_key_char w mac (toQueueKey w mac p)
          (ensureWriteFileQueue m (toQueueKey w mac p)).1 ps _ hwf2 hself pq2 h2
        constructor
        · intro hq; exact (this.mp hq.symm).symm
        · intro hkk; exact (this.mpr hkk.symm).symm
      · subst h2
        exact assignQueues_key_char w mac (toQueueKey w mac p)
          (ensureWriteFileQueue m (toQueueKey w mac p)).1 ps _ hwf2 hself pq1 h1
      · exact ih _ hwf2 pq1 h1 pq2 h2

/-- Events of an execution: the task at position `idx` of queue `queue`
starts or finishes running. -/
inductive QEvent where
  | taskStart (queue idx : Nat)
  | taskEnd (queue idx : Nat)
  deriving DecidableEq, Repr

def QEvent.queueOf : QEvent → Nat
  | .taskStart q _ => q
  | .taskEnd q _ => q

/-- Modelled from the spec: the `Queue` class from
`vs/base/common/async` is not part of this repository slice; the spec
describes it as "a simple per-path mutex queue".  A queue holding
`count` tasks therefore runs them one at a time, to completion, in FIFO
order: its own event sequence is start 0, end 0, start 1, end 1, ... -/
def serialRun (queue count : Nat) : List QEvent :=
  (List.range count).flatMap (fun i => [.taskStart queue i, .taskEnd queue i])

/-- A global trace is valid when its projection onto every queue is that
queue's serial FIFO run: distinct queues interleave freely, but each
queue runs its own tasks strictly one after another. -/
def ValidTrace (counts : Nat → Nat) (t : List QEvent) : Prop :=
  ∀ q, t.filter (fun e => e.queueOf == q) = serialRun q (counts q)

theorem sublist_serialRun (q i j n : Nat) (hij : i < j) (hjn : j < n) :
    List.Sublist [QEvent.taskEnd q i, QEvent.taskStart q j] (serialRun q n) := by
  have hn : n = j + (n - j) := by omega
  rw [serialRun, hn, List.range_add, List.flatMap_append]
  have he : QEvent.taskEnd q i ∈
      (List.range j).flatMap (fun i => [QEvent.taskStart q i, QEvent.taskEnd q i]) := by
    exact List.mem_flatMap.mpr ⟨i, List.mem_range.mpr hij, by simp⟩
  have hs : QEvent.taskStart q j ∈
      ((List.range (n - j)).map (fun x => j + x)).flatMap
        (fun i => [QEvent.taskStart q i, QEvent.taskEnd q i]) := by
    refine List.mem_flatMap.mpr ⟨j, ?_, by simp⟩
    exact List.mem_map.mpr ⟨0, List.mem_range.mpr (by omega), by omega⟩
  exact List.Sublist.append (List.singleton_sublist.mpr he)
    (List.singleton_sublist.mpr hs)

/-- The two-writer overlap witness trace: one task on queue 0 and one on
queue 1, the latter running entirely inside the former. -/
def overlapTrace : List QEvent :=
  [.taskStart 0 0, .taskStart 1 0, .taskEnd 1 0, .taskEnd 0 0]

def overlapCounts : Nat → Nat := fun q => if q < 2 then 1 else 0

theorem overlapTrace_valid : ValidTrace overlapCounts overlapTrace := by
  intro q
  match q with
  | 0 => rfl
  | 1 => rfl
  | (n + 2) =>
      have h0 : ((0 : Nat) == n + 2) = false := by simp
      have h1 : ((1 : Nat) == n + 2) = false := by simp
      simp only [overlapTrace, overlapCounts, List.filter, QEvent.queueOf, h0, h1]
      simp [serialRun]

/-- C3: (1) two `writeFile` submissions are enqueued on the same queue
exactly when their queue keys agree, the key being the path lowercased
on Windows and macOS and the path itself elsewhere; (2) in every valid
trace, of two tasks on the same queue the earlier-submitted one finishes
before the later one starts; (3) tasks on distinct queues are not
serialized: a valid trace runs queue 1's task strictly inside queue 0's. -/
theorem C3_write_serialization :
    (∀ (w mac : Bool) (ps : List String) (m : QueueMap), m.WF →
      ∀ pq1 ∈ ps.zip (assignQueues w mac ps m),
      ∀ pq2 ∈ ps.zip (assignQueues w mac ps m),
        (pq1.2 = pq2.2 ↔ toQueueKey w mac pq1.1 = toQueueKey w mac pq2.1)) ∧
    (∀ (counts : Nat → Nat) (t : List QEvent) (q i j : Nat),
      ValidTrace counts t → i < j → j < counts q →
        List.Sublist [QEvent.taskEnd q i, QEvent.taskStart q j] t) ∧
    (∃ t, ValidTrace overlapCounts t ∧
      List.Sublist [QEvent.taskStart 0 0, QEvent.taskStart 1 0] t ∧
      List.Sublist [QEvent.taskStart 1 0, QEvent.taskEnd 1 0] t ∧
      List.Sublist [QEvent.taskEnd 1 0, QEvent.taskEnd 0 0] t) := by
  refine ⟨?_, ?_, ?_⟩
  · intro w mac ps m hwf pq1 h1 pq2 h2
    exact assignQueues_same_queue_iff w mac ps m hwf pq1 h1 pq2 h2
  · intro counts t q i j hvalid hij hj
    have hproj := hvalid q
    have hsub : List.Sublist [QEvent.taskEnd q i, QEvent.taskStart q j]
        (t.filter (fun e => e.queueOf == q)) := by
      rw [hproj]; exact sublist_serialRun q i j (counts q) hij hj
    exact hsub.trans (List.filter_sublist t)
  · exact ⟨overlapTrace, overlapTrace_valid, by decide, by decide, by decide⟩

/-- C3 witness: on a queue holding two tasks, task 0 finishes before
task 1 starts in the serial trace of that queue. -/
theorem C3_witness :
    List.Sublist [QEvent.taskEnd 0 0, QEvent.taskStart 0 1] (serialRun 0 2) :=
  (C3_write_serialization).2.1 (fun q => if q = 0 then 2 else 0) (serialRun 0 2) 0 0 1
    (by
      intro q
      match q with
      | 0 => rfl
      | (n + 1) =>
          have h0 : ((0 : Nat) == n + 1) = false := by simp
          have hexp : serialRun 0 2 = [QEvent.taskStart 0 0, QEvent.taskEnd 0 0,
              QEvent.taskStart 0 1, QEvent.taskEnd 0 1] := rfl
          rw [hexp]
          simp [List.filter, QEvent.queueOf, h0, serialRun])
    (by omega) (by simp)

/-! ## Write file: flush to disk -/

/-- `IWriteFileOptions` from pfs.ts. -/
structure IWriteFileOptions where
  mode : Option Nat := none
  flag : Option String := none
  deriving DecidableEq, Repr

/-- `IEnsuredWriteFileOptions` from pfs.ts. -/
structure IEnsuredWriteFileOptions where
  mode : Nat
  flag : String
  deriving DecidableEq, Repr

/-- `ensureWriteOptions` from pfs.ts: defaults are mode `0o666` and
flag `"w"` (open for writing, truncating the file). -/
def ensureWriteOptions (options : Option IWriteFileOptions) : IEnsuredWriteFileOptions :=
  match options with
  | none => { mode := 0o666, flag := "w" }
  | some o => { mode := o.mode.getD 0o666, flag := o.flag.getD "w" }

/-- The observable state of the target file: `content` is what readers
of the path see (the OS page cache view); `stable` is what is
guaranteed to survive a power loss (stable storage).  `fdatasync`
transfers the cached content to stable storage; nothing else does. -/
structure FileState where
  content : List Nat
  stable : List Nat
  deriving DecidableEq, Repr

/-- Fault injection for one write call: whether `open` fails, whether
the write fails (and after how many bytes reached the file), whether
`fdatasync` fails, and whether `close` fails. -/
structure WriteEnv where
  openFail : Option ErrCode := none
  writeFailAfter : Option (Nat × ErrCode) := none
  fdatasyncFail : Option ErrCode := none
  closeFail : Option ErrCode := none
  deriving DecidableEq, Repr

/-- Result of one write call: the final file state, the error handed to
the callback (`none` = the call signals success), and the module-level
`canFlush` flag after the call. -/
structure WriteOutcome where
  file : FileState
  err : Option ErrCode
  canFlush : Bool
  deriving DecidableEq, Repr

/-- `doWriteFileAndFlush` from pfs.ts, for the ensured default options
(flag `"w"`, so a successful `open` truncates the file in place).
When `canFlush` is false it is a plain `fs.writeFile` with no
`fdatasync`.  Otherwise: `open`, `fs.writeFile(fd, data)` (closing the
handle and reporting the write error on failure), then `fdatasync`
(whose own failure only warns, permanently clears `canFlush` for the
session and lets the call complete), then `close`. -/
def doWriteFileAndFlush (canFlush : Bool) (data : List Nat) (env : WriteEnv)
    (st : FileState) : WriteOutcome :=
  if !canFlush then
    match env.openFail with
    | some e => { file := st, err := some e, canFlush := canFlush }
    | none =>
        match env.writeFailAfter with
        | some (k, e) =>
            { file := { st with content := data.take k }, err := some e,
              canFlush := canFlush }
        | none =>
            { file := { st with content := data }, err := env.closeFail,
              canFlush := canFlush }
  else
    match env.openFail with
    | some e => { file := st, err := some e, canFlush := canFlush }
    | none =>
        match env.writeFailAfter with
        | some (k, e) =>
            -- still need to close the handle on error, then report writeError
            { file := { st with content := data.take k }, err := some e,
              canFlush := canFlush }
        | none =>
            match env.fdatasyncFail with
            | some _ =>
                -- fdatasync is now disabled for this session; the call
                -- itself proceeds to close and reports only a close error
                { file := { st with content := data }, err := env.closeFail,
                  canFlush := false }
            | none =>
                { file := { content := data, stable := data }, err := env.closeFail,
                  canFlush := true }

/-- `writeFileSync` from pfs.ts for the ensured default options: the
synchronous mirror of `doWriteFileAndFlush`, with the `fdatasyncSync`
failure likewise swallowed after clearing `canFlush`, and the handle
closed in a `finally` block. -/
def writeFileSync (canFlush : Bool) (data : List Nat) (env : WriteEnv)
    (st : FileState) : WriteOutcome :=
  if !canFlush then
    match env.openFail with
    | some e => { file := st, err := some e, canFlush := canFlush }
    | none =>
        match env.writeFailAfter with
        | some (k, e) =>
            { file := { st with content := data.take k }, err := some e,
              canFlush := canFlush }
        | none =>
            { file := { st with content := data }, err := env.closeFail,
              canFlush := canFlush }
  else
    match env.openFail with
    | some e => { file := st, err := some e, canFlush := canFlush }
    | none =>
        match env.writeFailAfter with
        | some (k, e) =>
            { file := { st with content := data.take k }, err := some e,
              canFlush := canFlush }
        | none =>
            match env.fdatasyncFail with
            | some _ =>
                { file := { st with content := data }, err := env.closeFail,
                  canFlush := false }
            | none =>
                { file := { content := data, stable := data }, err := env.closeFail,
                  canFlush := true }

/-- C1 counterexample: previous content `[1]`, data `[2, 3]`, the write
fails after one byte.  The call reports the error, yet the file holds
`[2]` — neither the previous content nor the full data, refuting
atomicity and preservation-on-error. -/
theorem C1_counterexample :
    (doWriteFileAndFlush true [2, 3]
        { writeFailAfter := some (1, .eio) }
        { content := [1], stable := [1] }).err = some .eio ∧
    (doWriteFileAndFlush true [2, 3]
        { writeFailAfter := some (1, .eio) }
        { content := [1], stable := [1] }).file.content ≠ [1] ∧
    (doWriteFileAndFlush true [2, 3]
        { writeFailAfter := some (1, .eio) }
        { content := [1], stable := [1] }).file.content ≠ [2, 3] := by
  refine ⟨rfl, ?_, ?_⟩ <;> decide

/-- C1 amended: the write is performed in place (the default flag `"w"`
truncates), so it is not atomic: when open and write succeed the file
holds exactly `data`; when the write fails after `k` bytes the call
reports that error and the file is left holding the first `k` bytes of
`data`, the previous content being lost; only an `open` failure leaves
the file unchanged. -/
theorem C1_write_in_place (canFlush : Bool) (data : List Nat) (env : WriteEnv)
    (st : FileState) :
    (env.openFail = none → env.writeFailAfter = none →
      (doWriteFileAndFlush canFlush data env st).file.content = data) ∧
    (∀ k e, env.openFail = none → env.writeFailAfter = some (k, e) →
      (doWriteFileAndFlush canFlush data env st).err = some e ∧
      (doWriteFileAndFlush canFlush data env st).file.content = data.take k) ∧
    (∀ e, env.openFail = some e →
      (doWriteFileAndFlush canFlush data env st).file = st ∧
      (doWriteFileAndFlush canFlush data env st).err = some e) := by
  obtain ⟨op, wf, fd, cl⟩ := env
  refine ⟨?_, ?_, ?_⟩
  · intro hop hwf
    subst hop; subst hwf
    cases canFlush <;> cases fd <;> simp [doWriteFileAndFlush]
  · intro k e hop hwf
    subst hop; subst hwf
    cases canFlush <;> simp [doWriteFileAndFlush]
  · intro e hop
    subst hop
    cases canFlush <;> simp [doWriteFileAndFlush]

/-- C1 witness: with no fault injected, writing `[7, 8]` over `[9]`
leaves the file holding exactly `[7, 8]`. -/
theorem C1_witness :
    (doWriteFileAndFlush true [7, 8] {} { content := [9], stable := [9] }).file.content
      = [7, 8] :=
  (C1_write_in_place true [7, 8] {} { content := [9], stable := [9] }).1 rfl rfl

/-- C2 counterexample: with flushing enabled, `fdatasync` fails; the
call still completes successfully (`err = none`), but the new content
never reached stable storage, and flushing is disabled for the session. -/
theorem C2_counterexample :
    (doWriteFileAndFlush true [2, 3]
        { fdatasyncFail := some .eio }
        { content := [1], stable := [1] }).err = none ∧
    (doWriteFileAndFlush true [2, 3]
        { fdatasyncFail := some .eio }
        { content := [1], stable := [1] }).file.stable ≠ [2, 3] ∧
    (doWriteFileAndFlush true [2, 3]
        { fdatasyncFail := some .eio }
        { content := [1], stable := [1] }).file.content = [2, 3] ∧
    (doWriteFileAndFlush true [2, 3]
        { fdatasyncFail := some .eio }
        { content := [1], stable := [1] }).canFlush = false := by
  refine ⟨rfl, ?_, rfl, rfl⟩
  decide

/-- C2 amended: a successful call flushes the content to stable storage
before completion only while flushing is enabled and `fdatasync`
succeeds; when `fdatasync` fails the call may still complete
successfully without durability and flushing is permanently disabled
for the session, after which calls never touch stable storage.  The
same holds for `writeFileSync`. -/
theorem C2_flush_on_success (data : List Nat) (env : WriteEnv) (st : FileState) :
    (env.fdatasyncFail = none → (doWriteFileAndFlush true data env st).err = none →
      (doWriteFileAndFlush true data env st).file.stable = data ∧
      (doWriteFileAndFlush true data env st).canFlush = true) ∧
    (env.openFail = none → env.writeFailAfter = none → env.fdatasyncFail ≠ none →
      (doWriteFileAndFlush true data env st).canFlush = false ∧
      (doWriteFileAndFlush true data env st).file.stable = st.stable) ∧
    ((doWriteFileAndFlush false data env st).file.stable = st.stable) ∧
    (env.fdatasyncFail = none → (writeFileSync true data env st).err = none →
      (writeFileSync true data env st).file.stable = data ∧
      (writeFileSync true data env st).canFlush = true) ∧
    (env.openFail = none → env.writeFailAfter = none → env.fdatasyncFail ≠ none →
      (writeFileSync true data env st).canFlush = false ∧
      (writeFileSync true data env st).file.stable = st.stable) ∧
    ((writeFileSync false data env st).file.stable = st.stable) := by
  obtain ⟨op, wf, fd, cl⟩ := env
  refine ⟨?_, ?_, ?_, ?_, ?_, ?_⟩
  · intro hfd herr
    subst hfd
    cases op <;> cases wf <;> simp_all [doWriteFileAndFlush]
  · intro hop hwf hfd
    subst hop; subst hwf
    cases fd with
    | none => exact absurd rfl hfd
    | some e => simp [doWriteFileAndFlush]
  · cases op <;> cases wf <;> simp [doWriteFileAndFlush]
  · intro hfd herr
    subst hfd
    cases op <;> cases wf <;> simp_all [writeFileSync]
  · intro hop hwf hfd
    subst hop; subst hwf
    cases fd with
    | none => exact absurd rfl hfd
    | some e => simp [writeFileSync]
  · cases op <;> cases wf <;> simp [writeFileSync]

/-- C2 witness: with no fault injected, a successful write of `[7, 8]`
puts `[7, 8]` on stable storage and keeps flushing enabled. -/
theorem C2_witness :
    (doWriteFileAndFlush true [7, 8] {} { content := [9], stable := [9] }).file.stable
        = [7, 8] ∧
    (doWriteFileAndFlush true [7, 8] {} { content := [9], stable := [9] }).canFlush
        = true :=
  (C2_flush_on_success [7, 8] {} { content := [9], stable := [9] }).1 rfl rfl

/-! ## rimraf and move -/

/-- Effects `rimraf` and `move` perform on the host filesystem,
recorded as an action trace. -/
inductive FSAction where
  | rename (source target : String)
  | unlinkDelete (path : String)
  | copyTree (source target : String)
  | mtimeUpdate (path : String)
  deriving DecidableEq, Repr

/-- Modelled from the spec: `join` from `vs/base/common/path` is not
part of this repository slice; POSIX join of a directory path and a
child name. -/
def joinPath (a b : String) : String := a ++ "/" ++ b

/-- Modelled from the spec: `isRootOrDriveLetter` from
`vs/base/common/extpath` is not part of this repository slice.  The
claim describes its contract: a path that is a filesystem root or a
Windows drive letter.  Modelled as the path "/" on POSIX, and a single
drive letter optionally followed by one separator on Windows. -/
def isRootOrDriveLetter (isWindows : Bool) (path : String) : Bool :=
  if isWindows then
    match path.toList with
    | [c, ':'] => c.isAlpha
    | [c, ':', s] => c.isAlpha && (s = '/' || s = '\\')
    | _ => false
  else path = "/"

/-- `RimRafMode` from pfs.ts: UNLINK deletes in place, MOVE first
renames into a temp location and deletes that without waiting. -/
inductive RimRafMode where
  | unlink
  | move
  deriving DecidableEq, Repr

/-- Host inputs to one `rimrafMove` call: the OS temp directory
(`tmpdir()`), the fresh identifier `generateUuid()` returns, and
whether the rename into the temp directory fails. -/
structure RimrafEnv where
  tmpdir : String
  uuid : String
  renameFails : Bool
  deriving DecidableEq, Repr

/-- Outcome of a `rimraf` call: the error thrown (if any), the effects
performed and awaited by the call, and the effects started in the
background without awaiting (their failures are ignored). -/
structure RimrafOutcome where
  error : Option String
  performed : List FSAction
  background : List FSAction
  deriving DecidableEq, Repr

/-- `rimrafUnlink` from pfs.ts: `fs.promises.rmdir(path, { recursive:
true, maxRetries: 3 })`, a single recursive-delete effect. -/
def rimrafUnlink (path : String) : List FSAction := [.unlinkDelete path]

/-- `rimrafMove` from pfs.ts: rename `path` to `join(tmpdir(),
generateUuid())`; if the rename fails, delete in place without the temp
dir; on rename success, start deleting the temp location but do not
await the resulting promise (errors ignored). -/
def rimrafMove (env : RimrafEnv) (path : String) : RimrafOutcome :=
  if env.renameFails then
    { error := none, performed := rimrafUnlink path, background := [] }
  else
    { error := none,
      performed := [.rename path (joinPath env.tmpdir env.uuid)],
      background := rimrafUnlink (joinPath env.tmpdir env.uuid) }

/-- `rimraf` from pfs.ts: refuse to delete a root or drive letter, then
dispatch on the mode. -/
def rimraf (isWindows : Bool) (env : RimrafEnv) (path : String)
    (mode : RimRafMode := .unlink) : RimrafOutcome :=
  if isRootOrDriveLetter isWindows path then
    { error := some "rimraf - will refuse to recursively delete root",
      performed := [], background := [] }
  else
    match mode with
    | .unlink => { error := none, performed := rimrafUnlink path, background := [] }
    | .move => rimrafMove env path

/-- `rimrafSync` from pfs.ts: the same root guard, then a synchronous
recursive delete in place. -/
def rimrafSync (isWindows : Bool) (path : String) : RimrafOutcome :=
  if isRootOrDriveLetter isWindows path then
    { error := some "rimraf - will refuse to recursively delete root",
      performed := [], background := [] }
  else
    { error := none, performed := [.unlinkDelete path], background := [] }

/-- C7: for a non-root path, `rimraf` in MOVE mode first renames the
path to the fresh location `join(tmpdir(), uuid)`, then starts the
recursive deletion of that temp location in the background without
awaiting it; when the rename fails it falls back to recursive unlink
deletion of the path in place. -/
theorem C7_rimraf_move_steps (w : Bool) (env : RimrafEnv) (path : String)
    (hroot : isRootOrDriveLetter w path = false) :
    (env.renameFails = false →
      rimraf w env path .move =
        { error := none,
          performed := [.rename path (joinPath env.tmpdir env.uuid)],
          background := [.unlinkDelete (joinPath env.tmpdir env.uuid)] }) ∧
    (env.renameFails = true →
      rimraf w env path .move =
        { error := none, performed := [.unlinkDelete path], background := [] }) := by
  constructor
  · intro hr
    simp [rimraf, hroot, rimrafMove, hr, rimrafUnlink]
  · intro hr
    simp [rimraf, hroot, rimrafMove, hr, rimrafUnlink]

/-- C7 witness: on a concrete non-root path with a working rename, the
rename into the temp location is performed and the deletion of the temp
location is started in the background. -/
theorem C7_witness :
    rimraf false { tmpdir := "/tmp", uuid := "u1", renameFails := false }
        "/work/project" .move =
      { error := none,
        performed := [.rename "/work/project" (joinPath "/tmp" "u1")],
        background := [.unlinkDelete (joinPath "/tmp" "u1")] } :=
  (C7_rimraf_move_steps false
      { tmpdir := "/tmp", uuid := "u1", renameFails := false }
      "/work/project" (by decide)).1 rfl

/-- C8: for a path recognized as a filesystem root or a Windows drive
letter, `rimraf` (in either mode) and `rimrafSync` throw and perform no
filesystem action at all. -/
theorem C8_rimraf_refuses_root (w : Bool) (env : RimrafEnv) (path : String)
    (mode : RimRafMode) (hroot : isRootOrDriveLetter w path = true) :
    (rimraf w env path mode).error =
        some "rimraf - will refuse to recursively delete root" ∧
    (rimraf w env path mode).performed = [] ∧
    (rimraf w env path mode).background = [] ∧
    (rimrafSync w path).error =
        some "rimraf - will refuse to recursively delete root" ∧
    (rimrafSync w path).performed = [] ∧
    (rimrafSync w path).background = [] := by
  refine ⟨?_, ?_, ?_, ?_, ?_, ?_⟩ <;> simp [rimraf, rimrafSync, hroot]

/-- C8 witness: deleting "/" on POSIX (in MOVE mode) and "C:\" on
Windows (sync) is refused with no action performed. -/
theorem C8_witness :
    (rimraf false { tmpdir := "/tmp", uuid := "u1", renameFails := false }
        "/" .move).performed = [] ∧
    (rimrafSync true "C:\\").error =
        some "rimraf - will refuse to recursively delete root" :=
  ⟨(C8_rimraf_refuses_root false
      { tmpdir := "/tmp", uuid := "u1", renameFails := false } "/" .move
      (by decide)).2.1,
   (C8_rimraf_refuses_root true
      { tmpdir := "/tmp", uuid := "u1", renameFails := false } "C:\\" .unlink
      (by decide)).2.2.2.1⟩

/-- An error surfaced by `move`: either an errno code rethrown from
`rename`, or a message thrown by a callee such as `rimraf`. -/
inductive MoveErr where
  | code (e : ErrCode)
  | message (s : String)
  deriving DecidableEq, Repr

/-- Host inputs to one `move` call: the outcome `fs.promises.rename`
would have (`none` = success), whether the moved target lstats as a
regular file (deciding whether `updateMtime` touches it), and the
inputs of the `rimraf` the fallback performs. -/
structure MoveEnv where
  renameOutcome : Option ErrCode
  targetIsRegularFile : Bool
  rimrafEnv : RimrafEnv
  deriving DecidableEq, Repr

/-- Outcome of a `move` call. -/
structure MoveOutcome where
  error : Option MoveErr
  performed : List FSAction
  background : List FSAction
  deriving DecidableEq, Repr

/-- `updateMtime` from `move` in pfs.ts: touch the path's mtime only
when it is a regular file (directories and symbolic links return
early), swallowing every error. -/
def updateMtime (isRegularFile : Bool) (path : String) : List FSAction :=
  if isRegularFile then [.mtimeUpdate path] else []

/-- `move` from pfs.ts: a no-op when source and target match; otherwise
rename and update the target's mtime; when the rename fails, fall back
to `copy` + `rimraf(source, MOVE)` + mtime update exactly when
`source.toLowerCase() !== target.toLowerCase() && error.code === 'EXDEV'
|| source.endsWith('.')`, and rethrow the rename error otherwise. -/
def move (isWindows : Bool) (env : MoveEnv) (source target : String) : MoveOutcome :=
  if source = target then
    -- simulate node.js behaviour here and do a no-op if paths match
    { error := none, performed := [], background := [] }
  else
    match env.renameOutcome with
    | none =>
        { error := none,
          performed := .rename source target ::
            updateMtime env.targetIsRegularFile target,
          background := [] }
    | some e =>
        if (source.toLower != target.toLower && e == ErrCode.exdev)
            || source.endsWith "." then
          match (rimraf isWindows env.rimrafEnv source .move).error with
          | some msg =>
              { error := some (.message msg),
                performed := .copyTree source target ::
                  (rimraf isWindows env.rimrafEnv source .move).performed,
                background := (rimraf isWindows env.rimrafEnv source .move).background }
          | none =>
              { error := none,
                performed := .copyTree source target ::
                  (rimraf isWindows env.rimrafEnv source .move).performed
                  ++ updateMtime env.targetIsRegularFile target,
                background := (rimraf isWindows env.rimrafEnv source .move).background }
        else
          { error := some (.code e), performed := [], background := [] }

/-- C6: for distinct source and target (and a fallback `rimraf` that
does not itself throw): a successful rename performs the rename and the
mtime update for regular files; when the rename fails, the fallback
copy + recursive delete of source + mtime update happens exactly when
the error is EXDEV with source and target differing beyond letter case,
or source ends with a dot; any other rename error is rethrown with no
action performed. -/
theorem C6_move_fallback (w : Bool) (env : MoveEnv) (source target : String)
    (hne : source ≠ target)
    (hrim : (rimraf w env.rimrafEnv source .move).error = none) :
    (env.renameOutcome = none →
      move w env source target =
        { error := none,
          performed := .rename source target ::
            updateMtime env.targetIsRegularFile target,
          background := [] }) ∧
    (∀ e, env.renameOutcome = some e →
      (((source.toLower != target.toLower && e == ErrCode.exdev)
          || source.endsWith ".") = true →
        move w env source target =
          { error := none,
            performed := .copyTree source target ::
              (rimraf w env.rimrafEnv source .move).performed
              ++ updateMtime env.targetIsRegularFile target,
            background := (rimraf w env.rimrafEnv source .move).background }) ∧
      (((source.toLower != target.toLower && e == ErrCode.exdev)
          || source.endsWith ".") = false →
        move w env source target =
          { error := some (.code e), performed := [], background := [] }) ∧
      ((move w env source target).error = some (.code e) ↔
        ((source.toLower != target.toLower && e == ErrCode.exdev)
          || source.endsWith ".") = false)) := by
  constructor
  · intro hr
    simp [move, hne, hr]
  · intro e hr
    refine ⟨?_, ?_, ?_⟩
    · intro hcond
      simp only [move, if_neg hne, hr, hcond, if_pos]
      split
      · next msg hmsg => rw [hrim] at hmsg; exact absurd hmsg (by simp)
      · rfl
    · intro hcond
      simp [move, hne, hr, hcond]
    · constructor
      · intro herr
        by_contra hcond
        have hcond2 : ((source.toLower != target.toLower && e == ErrCode.exdev)
            || source.endsWith ".") = true := by
          cases hc : ((source.toLower != target.toLower && e == ErrCode.exdev)
              || source.endsWith ".") with
          | false => exact absurd hc hcond
          | true => rfl
        rw [move, if_neg hne, hr] at herr
        simp only [hcond2, if_pos] at herr
        revert herr
        split
        · next msg hmsg => rw [hrim] at hmsg; exact absurd hmsg (by simp)
        · simp
      · intro hcond
        simp [move, hne, hr, hcond]

/-- C6 witness: a successful rename of a regular file performs the
rename followed by the mtime update on the target. -/
theorem C6_witness :
    move false
        { renameOutcome := none, targetIsRegularFile := true,
          rimrafEnv := { tmpdir := "/tmp", uuid := "u1", renameFails := false } }
        "/x/old" "/x/new" =
      { error := none,
        performed := [.rename "/x/old" "/x/new", .mtimeUpdate "/x/new"],
        background := [] } := by
  have h := (C6_move_fallback false
      { renameOutcome := none, targetIsRegularFile := true,
        rimrafEnv := { tmpdir := "/tmp", uuid := "u1", renameFails := false } }
      "/x/old" "/x/new" (by decide) rfl).1 rfl
  simpa [updateMtime] using h

/-! ## copy -/

/-- Result of `copy` when run with a bounded recursion depth: the
recursion kept descending until the bound ran out, failed with an
error, or completed, returning the updated `handledSources` set. -/
inductive CopyRes where
  | fuelOut
  | err (e : ErrCode)
  | ok (handled : List String)
  deriving DecidableEq, Repr

/-- `copy` from pfs.ts over the abstract filesystem interface, with an
explicit recursion-depth bound `n` standing for unbounded recursion:
consult `handledSources` on entry and return immediately on a hit,
otherwise record the source; resolve the source with
`SymlinkSupport.stat`, skipping dangling links; copy non-directories as
single files (`doCopyFile`, a host effect with no bearing on the
recursion); for directories, create the target folder and copy each
listed child recursively at `join(source, file)`.  File-copy and mkdir
effects are not tracked; only control flow and the handled set are. -/
def copyFuel (isWindows isMacintosh : Bool) (nfc : String → String) (fs : NodeFS) :
    Nat → String → String → List String → CopyRes
  | 0, _, _, _ => .fuelOut
  | n + 1, source, target, handledIn =>
      if handledIn.contains source then .ok handledIn
      else
        let handled := source :: handledIn
        match SymlinkSupport.stat isWindows fs source with
        | .error e => .err e
        | .ok r =>
            if (r.symbolicLink.map SymbolicLinkInfo.dangling).getD false then
              -- skip over dangling symbolic links
              .ok handled
            else if !r.stat.isDirectory then
              -- doCopyFile(source, target, mode & COPY_MODE_MASK)
              .ok handled
            else
              match readdir isMacintosh nfc fs source with
              | .error e => .err e
              | .ok files =>
                  files.foldl
                    (fun acc file =>
                      match acc with
                      | .ok h =>
                          copyFuel isWindows isMacintosh nfc fs n
                            (joinPath source file) (joinPath target file) h
                      | other => other)
                    (.ok handled)

/-- The path family a symbolic-link directory cycle produces:
`pathN 0 = "/a"` and `pathN (n+1) = pathN n ++ "/link"`. -/
def pathN : Nat → String
  | 0 => "/a"
  | n + 1 => pathN n ++ "/link"

/-- Decidable membership in the `pathN` family (the length of `pathN n`
grows with `n`, so only finitely many candidates need checking). -/
def isCycPath (p : String) : Bool :=
  (List.range (p.length + 1)).any (fun n => p == pathN n)

/-- A filesystem with a symbolic-link cycle: the directory `/a` holds a
single child `link`, a symbolic link back to `/a`.  Every path of the
family `/a(/link)*` hence lstats as the directory (for `/a`) or as a
symbolic link, resolves through the link to the directory, and lists
the single child `link`. -/
def cyclicFS : NodeFS where
  lstat p :=
    if p = "/a" then
      .ok { isFile := false, isDirectory := true, isSymbolicLink := false }
    else if isCycPath p then
      .ok { isFile := false, isDirectory := false, isSymbolicLink := true }
    else .error .enoent
  stat p :=
    if isCycPath p then
      .ok { isFile := false, isDirectory := true, isSymbolicLink := false }
    else .error .enoent
  readlink p :=
    if isCycPath p && p ≠ "/a" then .ok "/a" else .error .einval
  readdirNames p :=
    if isCycPath p then .ok ["link"] else .error .enoent

theorem pathN_length (n : Nat) : (pathN n).length = 2 + 5 * n := by
  induction n with
  | zero => rfl
  | succ n ih =>
      show (pathN n ++ "/link").length = 2 + 5 * (n + 1)
      rw [String.length_append, ih]
      rfl

theorem pathN_ne (i j : Nat) (h : i ≠ j) : pathN i ≠ pathN j := by
  intro he
  apply h
  have := congrArg String.length he
  rw [pathN_length, pathN_length] at this
  omega

theorem isCycPath_pathN (k : Nat) : isCycPath (pathN k) = true := by
  unfold isCycPath
  rw [List.any_eq_true]
  refine ⟨k, List.mem_range.mpr ?_, ?_⟩
  · rw [pathN_length]; omega
  · exact beq_self_eq_true (pathN k)

theorem pathN_succ_ne_root (k : Nat) : pathN (k + 1) ≠ "/a" := by
  have h := pathN_ne (k + 1) 0 (by omega)
  simpa [pathN] using h

theorem joinPath_pathN (k : Nat) : joinPath (pathN k) "link" = pathN (k + 1) := by
  show pathN k ++ "/" ++ "link" = pathN k ++ "/link"
  rw [String.append_assoc]
  rfl

theorem symstat_pathN (k : Nat) :
    ∃ sl, SymlinkSupport.stat false cyclicFS (pathN k) =
        .ok { stat := { isFile := false, isDirectory := true, isSymbolicLink := false },
              symbolicLink := sl } ∧
      (sl.map SymbolicLinkInfo.dangling).getD false = false := by
  match k with
  | 0 =>
      refine ⟨none, ?_, rfl⟩
      rfl
  | k + 1 =>
      refine ⟨some { dangling := false }, ?_, rfl⟩
      have hlstat : cyclicFS.lstat (pathN (k + 1)) =
          .ok { isFile := false, isDirectory := false, isSymbolicLink := true } := by
        simp [cyclicFS, pathN_succ_ne_root k, isCycPath_pathN]
      have hstat : cyclicFS.stat (pathN (k + 1)) =
          .ok { isFile := false, isDirectory := true, isSymbolicLink := false } := by
        simp [cyclicFS, isCycPath_pathN]
      rw [SymlinkSupport.stat, hlstat]
      simp only [Bool.not_true]
      rw [if_neg (by simp)]
      rw [SymlinkSupport.statFollow, hstat]
      rfl

theorem readdir_pathN (nfc : String → String) (k : Nat) :
    readdir false nfc cyclicFS (pathN k) = .ok ["link"] := by
  have h : cyclicFS.readdirNames (pathN k) = .ok ["link"] := by
    simp [cyclicFS, isCycPath_pathN]
  rw [readdir, h]
  rfl

theorem copyFuel_cyclic (nfc : String → String) :
    ∀ (n k : Nat) (target : String) (handled : List String),
      (∀ j, k ≤ j → handled.contains (pathN j) = false) →
      copyFuel false false nfc cyclicFS n (pathN k) target handled = .fuelOut := by
  intro n
  induction n with
  | zero => intro k target handled _; rfl
  | succ n ih =>
      intro k target handled hfresh
      obtain ⟨sl, hstat, hdang⟩ := symstat_pathN k
      rw [copyFuel, hfresh k le_rfl]
      simp only [Bool.false_eq_true, if_false]
      rw [hstat]
      simp only [hdang, Bool.false_eq_true, if_false]
      simp only [Bool.not_true, Bool.false_eq_true, if_false]
      rw [readdir_pathN nfc k]
      simp only [List.foldl]
      rw [joinPath_pathN k]
      have hres := ih (k + 1) (joinPath target "link") (pathN k :: handled)
        (by
          intro j hj
          rw [List.contains_cons]
          have h1 : (pathN j == pathN k) = false :=
            beq_eq_false_iff_ne.mpr (pathN_ne j k (by omega))
          rw [h1, hfresh j (by omega)]
          rfl)
      rw [hres]

/-- C9 (refuting the claim): on a filesystem whose directory `/a` holds
a symbolic link `link` back to `/a`, `copy("/a", "/b")` exhausts every
recursion depth: the traversal descends through `/a/link`,
`/a/link/link`, ... — each a path string never seen before, so the
`handledSources` guard never matches — and never completes. -/
theorem C9_copy_cycle_diverges (nfc : String → String) :
    ∀ n, copyFuel false false nfc cyclicFS n "/a" "/b" [] = .fuelOut := by
  intro n
  have h := copyFuel_cyclic nfc n 0 "/b" [] (by intro j _; rfl)
  exact h
